import Mathlib

/-!
Verification of the PII detection/redaction engine, deterministic
anonymization subsystem, and compliance-validation gate of
`src/privacy/pii_redactor.py`.

The embedding models:
  * the four regex patterns of `PIIRedactor.PATTERNS` as first-order
    pattern data interpreted by a backtracking matcher with Python `re`
    semantics (leftmost match, greedy quantifiers, word boundaries);
  * `re.search`, `re.sub`, `re.findall` for these patterns;
  * the recursive `redact` / `detect_pii` / `get_pii_report` /
    `validate_no_pii` operations over a closed `ScanTarget` datatype
    covering the runtime shapes the code dispatches on
    (str / dict / list / primitives);
  * Python's `str()` flattening used by `detect_pii` and
    `get_pii_report` (modelled for printable-ASCII content);
  * `anonymize` with its cache, over a from-scratch SHA-256 on `Nat`s.

Character classes are ASCII (the Python patterns are Unicode-aware, but
every string in the verified corpus is printable ASCII, where the two
semantics agree).
-/

namespace ZevBit

set_option maxRecDepth 100000

/-- Python `\w` (word character), ASCII fragment: letters, digits, `_`. -/
def isWordChar (c : Char) : Bool := c.isAlphanum || c = '_'

/-- Python `\s`, ASCII fragment: space, tab, newline, CR, VT, FF. -/
def isSpaceChar (c : Char) : Bool :=
  c = ' ' || c = '\t' || c = '\n' || c = '\r' || c = '\x0b' || c = '\x0c'

/-- The character classes appearing in `PIIRedactor.PATTERNS`. -/
inductive CC where
  | digit           -- `\d`
  | sepDashSpace    -- `[-\s]`
  | sepDashDotSpace -- `[-.\s]`
  | emailLocal      -- `[a-zA-Z0-9._%+-]`
  | emailDomain     -- `[a-zA-Z0-9.-]`
  | alpha           -- `[a-zA-Z]`
  deriving DecidableEq

def ccMem : CC → Char → Bool
  | .digit, c => c.isDigit
  | .sepDashSpace, c => c = '-' || isSpaceChar c
  | .sepDashDotSpace, c => c = '-' || c = '.' || isSpaceChar c
  | .emailLocal, c => c.isAlpha || c.isDigit || c = '.' || c = '_' || c = '%' || c = '+' || c = '-'
  | .emailDomain, c => c.isAlpha || c.isDigit || c = '.' || c = '-'
  | .alpha, c => c.isAlpha

/-- One syntactic element of a pattern.  The four registry patterns are
sequences of exactly these forms: literal characters, optional (`?`)
literals and classes, exact (`{n}`) class repetition, greedy `+` and
`{n,}` class repetition, and the zero-width `\b` word boundary. -/
inductive Atom where
  | lit (c : Char)               -- a literal character
  | optLit (c : Char)            -- `c?` (greedy)
  | optCls (cc : CC)             -- `[..]?` (greedy)
  | repCls (cc : CC) (n : Nat)   -- `[..]{n}`
  | plusCls (cc : CC)            -- `[..]+` (greedy)
  | atLeastCls (cc : CC) (n : Nat) -- `[..]{n,}` (greedy)
  | wb                           -- `\b`
  deriving DecidableEq

abbrev Pat := List Atom

def wordOpt : Option Char → Bool
  | some c => isWordChar c
  | none => false

/-- Python `\b`: true when exactly one side of the position is a word
character (`prev` is the character before the position, `s` the rest). -/
def atBoundary (prev : Option Char) (s : List Char) : Bool :=
  wordOpt prev != wordOpt s.head?

/-- Length of the maximal prefix of `s` inside class `cc`. -/
def runLen (cc : CC) (s : List Char) : Nat := (s.takeWhile (ccMem cc)).length

/-- Backtracking matcher: try to match the atom sequence at the start of
`s` (with `prev` the character just before `s`, for `\b`); on success
return the remaining suffix of the first match in Python's backtracking
priority order (greedy quantifiers preferring longer consumption). -/
def matchAtoms : Pat → Option Char → List Char → Option (List Char)
  | [], _, s => some s
  | .lit c :: as, _, s =>
      match s with
      | c' :: rest => if c' = c then matchAtoms as (some c') rest else none
      | [] => none
  | .optLit c :: as, prev, s =>
      (match s with
       | c' :: rest => if c' = c then matchAtoms as (some c') rest else none
       | [] => none) <|> matchAtoms as prev s
  | .optCls cc :: as, prev, s =>
      (match s with
       | c' :: rest => if ccMem cc c' then matchAtoms as (some c') rest else none
       | [] => none) <|> matchAtoms as prev s
  | .repCls cc n :: as, prev, s =>
      if (s.take n).length = n && (s.take n).all (ccMem cc) then
        matchAtoms as (if n = 0 then prev else (s.take n).getLast?) (s.drop n)
      else none
  | .plusCls cc :: as, _, s =>
      let r := runLen cc s
      (List.range r).findSome? fun i =>
        let k := r - i
        matchAtoms as (s.take k).getLast? (s.drop k)
  | .atLeastCls cc n :: as, prev, s =>
      let r := runLen cc s
      (List.range (r + 1 - n)).findSome? fun i =>
        let k := r - i
        matchAtoms as (if k = 0 then prev else (s.take k).getLast?) (s.drop k)
  | .wb :: as, prev, s =>
      if atBoundary prev s then matchAtoms as prev s else none

/-- `re.search` scan: try the pattern at every position, left to right. -/
def searchFrom (p : Pat) (prev : Option Char) (s : List Char) : Bool :=
  (matchAtoms p prev s).isSome ||
    match s with
    | [] => false
    | c :: rest => searchFrom p (some c) rest

def reSearch (p : Pat) (s : String) : Bool := searchFrom p none s.data

/-- `re.sub` scan: replace each leftmost non-overlapping match by `repl`
and resume right after it (the `\b` context character being the last
consumed character of the original string).  Structural recursion on a
fuel counter; every step consumes at least one character, so
`s.length + 1` fuel always suffices (and the exhausted-fuel branch
returns the remaining input unchanged).  The registry patterns never
match the empty string, so the zero-width branch that mirrors copying
one character is a safeguard only. -/
def subFromF (p : Pat) (repl : List Char) : Nat → Option Char → List Char → List Char
  | 0, _, s => s
  | fuel + 1, prev, s =>
    match matchAtoms p prev s with
    | some rest =>
        if rest.length < s.length then
          repl ++ subFromF p repl fuel ((s.take (s.length - rest.length)).getLast?) rest
        else
          match s with
          | [] => repl
          | c :: tail => repl ++ c :: subFromF p repl fuel (some c) tail
    | none =>
        match s with
        | [] => []
        | c :: tail => c :: subFromF p repl fuel (some c) tail

def subFrom (p : Pat) (repl : List Char) (prev : Option Char) (s : List Char) : List Char :=
  subFromF p repl (s.length + 1) prev s

def reSub (p : Pat) (repl : String) (s : String) : String :=
  ⟨subFrom p repl.data none s.data⟩

/-- `re.findall` scan (patterns without groups): the list of matched
substrings, leftmost non-overlapping, with the same fuel discipline as
`subFromF`. -/
def findallFromF (p : Pat) : Nat → Option Char → List Char → List (List Char)
  | 0, _, _ => []
  | fuel + 1, prev, s =>
    match matchAtoms p prev s with
    | some rest =>
        if rest.length < s.length then
          s.take (s.length - rest.length) ::
            findallFromF p fuel ((s.take (s.length - rest.length)).getLast?) rest
        else
          match s with
          | [] => [[]]
          | c :: tail => [] :: findallFromF p fuel (some c) tail
    | none =>
        match s with
        | [] => []
        | c :: tail => findallFromF p fuel (some c) tail

def findallFrom (p : Pat) (prev : Option Char) (s : List Char) : List (List Char) :=
  findallFromF p (s.length + 1) prev s

def reFindall (p : Pat) (s : String) : List String :=
  (findallFrom p none s.data).map String.mk

/-- `PATTERNS["ssn"]`: `\b\d{3}-\d{2}-\d{4}\b`. -/
def ssnPat : Pat :=
  [.wb, .repCls .digit 3, .lit '-', .repCls .digit 2, .lit '-', .repCls .digit 4, .wb]

/-- `PATTERNS["credit_card"]`: `\b\d{4}[-\s]?\d{4}[-\s]?\d{4}[-\s]?\d{4}\b`. -/
def creditCardPat : Pat :=
  [.wb, .repCls .digit 4, .optCls .sepDashSpace, .repCls .digit 4, .optCls .sepDashSpace,
   .repCls .digit 4, .optCls .sepDashSpace, .repCls .digit 4, .wb]

/-- `PATTERNS["email"]`: `\b[a-zA-Z0-9._%+-]+@[a-zA-Z0-9.-]+\.[a-zA-Z]{2,}\b`. -/
def emailPat : Pat :=
  [.wb, .plusCls .emailLocal, .lit '@', .plusCls .emailDomain, .lit '.',
   .atLeastCls .alpha 2, .wb]

/-- `PATTERNS["phone"]`: `\(?\d{3}\)?[-.\s]?\d{3}[-.\s]?\d{4}\b`. -/
def phonePat : Pat :=
  [.optLit '(', .repCls .digit 3, .optLit ')', .optCls .sepDashDotSpace,
   .repCls .digit 3, .optCls .sepDashDotSpace, .repCls .digit 4, .wb]

/-- `PIIRedactor.PATTERNS`, in the source's (insertion) order. -/
def PATTERNS : List (String × Pat) :=
  [("ssn", ssnPat), ("credit_card", creditCardPat), ("email", emailPat), ("phone", phonePat)]

/-- `PIIRedactor.REPLACEMENTS`. -/
def REPLACEMENTS : List (String × String) :=
  [("ssn", "[REDACTED_SSN]"), ("credit_card", "[REDACTED_CC]"),
   ("email", "[REDACTED_EMAIL]"), ("phone", "[REDACTED_PHONE]")]

/-- `PIIRedactor._redact_string`: apply each pattern's `re.sub` in
registry order. -/
def _redact_string (text : String) : String :=
  PATTERNS.foldl (fun t np => reSub np.2 ((REPLACEMENTS.lookup np.1).getD "") t) text

/-- The runtime shapes `PIIRedactor.redact` dispatches on: `str`, `dict`
(string-keyed, insertion-ordered), `list`, and the primitives the `else`
branch passes through (`int`, `bool`, `None`). -/
inductive ScanTarget where
  | str (s : String)
  | int (n : Int)
  | bool (b : Bool)
  | none
  | list (xs : List ScanTarget)
  | dict (kvs : List (String × ScanTarget))

mutual

/-- `PIIRedactor.redact`: rewrite every string leaf with
`_redact_string`, rebuild dicts and lists, pass primitives through. -/
def redact : ScanTarget → ScanTarget
  | .str s => .str (_redact_string s)
  | .dict kvs => .dict (redactKVs kvs)
  | .list xs => .list (redactList xs)
  | .int n => .int n
  | .bool b => .bool b
  | .none => .none

/-- `redact` mapped over the elements of a list value. -/
def redactList : List ScanTarget → List ScanTarget
  | [] => []
  | x :: xs => redact x :: redactList xs

/-- `redact` mapped over the values of a dict (keys untouched). -/
def redactKVs : List (String × ScanTarget) → List (String × ScanTarget)
  | [] => []
  | kv :: kvs => (kv.1, redact kv.2) :: redactKVs kvs

end

/-- One character of CPython `repr` of a string, given the chosen quote
character `q` (printable-ASCII fragment: backslash, the quote and the
control characters tab/newline/CR are escaped; other printable
characters stand for themselves). -/
def pyCharEscape (q c : Char) : List Char :=
  if c = '\\' then ['\\', '\\']
  else if c = q then ['\\', q]
  else if c = '\t' then ['\\', 't']
  else if c = '\n' then ['\\', 'n']
  else if c = '\r' then ['\\', 'r']
  else [c]

/-- CPython `repr` of a string (printable-ASCII fragment): single quotes
unless the string contains `'` but no `"`. -/
def pyReprStr (s : String) : String :=
  let q := if s.data.contains '\'' && !s.data.contains '"' then '"' else '\''
  ⟨q :: (s.data.map (pyCharEscape q)).flatten ++ [q]⟩

mutual

/-- CPython `repr` of a ScanTarget value (as embedded in `str()` of a
container: strings quoted, `True`/`False`/`None`, `[..]`/`{k: v}`). -/
def pyRepr : ScanTarget → String
  | .str s => pyReprStr s
  | .int n => toString n
  | .bool b => if b then "True" else "False"
  | .none => "None"
  | .list xs => "[" ++ String.intercalate ", " (pyReprList xs) ++ "]"
  | .dict kvs => "\x7b" ++ String.intercalate ", " (pyReprKVs kvs) ++ "\x7d"

def pyReprList : List ScanTarget → List String
  | [] => []
  | x :: xs => pyRepr x :: pyReprList xs

def pyReprKVs : List (String × ScanTarget) → List String
  | [] => []
  | kv :: kvs => (pyReprStr kv.1 ++ ": " ++ pyRepr kv.2) :: pyReprKVs kvs

end

/-- Python `str(data)` as used by `detect_pii` / `get_pii_report`: the
string itself at the top level, `repr`-style rendering inside
containers. -/
def pyStr : ScanTarget → String
  | .str s => s
  | x => pyRepr x

/-- `PIIRedactor.detect_pii`: scan `str(data)` with every pattern and
return the names of the matching categories.  (The source accumulates a
Python `set` and returns `list(detected)`; the iteration order of that
set is unspecified, so the embedding returns the registry order — all
verified properties are membership facts, which do not depend on it.) -/
def detect_pii (data : ScanTarget) : List String :=
  let text := pyStr data
  (PATTERNS.filter fun np => reSearch np.2 text).map Prod.fst

/-- `PIIRedactor.validate_no_pii`. -/
def validate_no_pii (data : ScanTarget) : Bool :=
  (detect_pii data).length == 0

structure PiiDetail where
  count : Nat
  examples : List String
  deriving DecidableEq

structure PiiReport where
  pii_detected : Bool
  pii_types : List String
  details : List (String × PiiDetail)
  deriving DecidableEq

/-- `PIIRedactor.get_pii_report`: per-category `re.findall` counts over
`str(data)` with up to 3 example matches. -/
def get_pii_report (data : ScanTarget) : PiiReport :=
  let text := pyStr data
  let detected := PATTERNS.filterMap fun np =>
    let ms := reFindall np.2 text
    if ms.length > 0 then some (np.1, ⟨ms.length, ms.take 3⟩) else Option.none
  { pii_detected := detected.length > 0
    pii_types := detected.map Prod.fst
    details := detected }

structure ComplianceResult where
  compliant : Bool
  issues : List String
  pii_report : PiiReport
  deriving DecidableEq

/-- `ComplianceValidator.validate_data_for_storage`: run the PII report;
if anything was detected append one summary issue naming the detected
categories; `compliant` is `len(issues) == 0`. -/
def validate_data_for_storage (data : ScanTarget) : ComplianceResult :=
  let pii_report := get_pii_report data
  let issues :=
    if pii_report.pii_detected then
      ["PII detected: " ++ String.intercalate ", " pii_report.pii_types]
    else []
  { compliant := issues.length == 0
    issues := issues
    pii_report := pii_report }

/-! SHA-256 (FIPS 180-4) over byte lists, words as `Nat` reduced mod
`2^32`, as used by `hashlib.sha256(identifier.encode()).hexdigest()`. -/

def w32 (n : Nat) : Nat := n % 4294967296

def rotr32 (n x : Nat) : Nat := w32 ((x >>> n) ||| (x <<< (32 - n)))

def bsig0 (x : Nat) : Nat := rotr32 2 x ^^^ rotr32 13 x ^^^ rotr32 22 x
def bsig1 (x : Nat) : Nat := rotr32 6 x ^^^ rotr32 11 x ^^^ rotr32 25 x
def ssig0 (x : Nat) : Nat := rotr32 7 x ^^^ rotr32 18 x ^^^ (x >>> 3)
def ssig1 (x : Nat) : Nat := rotr32 17 x ^^^ rotr32 19 x ^^^ (x >>> 10)
def chf (x y z : Nat) : Nat := (x &&& y) ^^^ ((x ^^^ 4294967295) &&& z)
def majf (x y z : Nat) : Nat := (x &&& y) ^^^ (x &&& z) ^^^ (y &&& z)

/-- The 64 SHA-256 round constants, in decimal. -/
def sha256K : List Nat :=
  [1116352408, 1899447441, 3049323471, 3921009573, 961987163,
   1508970993, 2453635748, 2870763221, 3624381080, 310598401,
   607225278, 1426881987, 1925078388, 2162078206, 2614888103,
   3248222580, 3835390401, 4022224774, 264347078, 604807628,
   770255983, 1249150122, 1555081692, 1996064986, 2554220882,
   2821834349, 2952996808, 3210313671, 3336571891, 3584528711,
   113926993, 338241895, 666307205, 773529912, 1294757372,
   1396182291, 1695183700, 1986661051, 2177026350, 2456956037,
   2730485921, 2820302411, 3259730800, 3345764771, 3516065817,
   3600352804, 4094571909, 275423344, 430227734, 506948616,
   659060556, 883997877, 958139571, 1322822218, 1537002063,
   1747873779, 1955562222, 2024104815, 2227730452, 2361852424,
   2428436474, 2756734187, 3204031479, 3329325298]

/-- The eight SHA-256 initial hash words, in decimal. -/
def sha256H0 : List Nat :=
  [1779033703, 3144134277, 1013904242, 2773480762,
   1359893119, 2600822924, 528734635, 1541459225]

/-- Extend a 16-word block to the 64-word message schedule
(`fuel` iterations, invoked with 48). -/
def extendSchedule : Nat → List Nat → List Nat
  | 0, w => w
  | fuel + 1, w =>
      let t := w.length
      extendSchedule fuel
        (w ++ [w32 (ssig1 (w.getD (t - 2) 0) + w.getD (t - 7) 0 +
                    ssig0 (w.getD (t - 15) 0) + w.getD (t - 16) 0)])

/-- One SHA-256 round on the working state `[a,b,c,d,e,f,g,h]`. -/
def sha256Round (kw : Nat × Nat) (st : List Nat) : List Nat :=
  match st with
  | [a, b, c, d, e, f, g, h] =>
      let t1 := w32 (h + bsig1 e + chf e f g + kw.1 + kw.2)
      let t2 := w32 (bsig0 a + majf a b c)
      [w32 (t1 + t2), a, b, c, w32 (d + t1), e, f, g]
  | other => other

/-- Compress one 16-word block into the running hash. -/
def sha256Compress (h : List Nat) (block : List Nat) : List Nat :=
  let w := extendSchedule 48 block
  let st := (sha256K.zip w).foldl (fun st kw => sha256Round kw st) h
  (h.zip st).map fun ab => w32 (ab.1 + ab.2)

/-- SHA-256 padding for a message of `len` bytes: `0x80`, zeros to 56
mod 64, then the bit length as 8 big-endian bytes. -/
def sha256Padding (len : Nat) : List Nat :=
  128 :: List.replicate ((119 - len % 64) % 64) 0 ++
    (List.range 8).map fun i => (8 * len) >>> (8 * (7 - i)) % 256

/-- Group bytes into big-endian 32-bit words. -/
def bytesToWords : List Nat → List Nat
  | b0 :: b1 :: b2 :: b3 :: rest => (((b0 * 256 + b1) * 256 + b2) * 256 + b3) :: bytesToWords rest
  | _ => []

/-- Split a byte list into 64-byte chunks (fuel-structural; each step
strictly shortens the list, so `l.length + 1` fuel suffices). -/
def chunk64F : Nat → List Nat → List (List Nat)
  | 0, _ => []
  | fuel + 1, l => if l.isEmpty then [] else l.take 64 :: chunk64F fuel (l.drop 64)

def chunk64 (l : List Nat) : List (List Nat) := chunk64F (l.length + 1) l

/-- The eight 32-bit words of the SHA-256 digest of a byte list. -/
def sha256Words (msg : List Nat) : List Nat :=
  (chunk64 (msg ++ sha256Padding msg.length)).foldl
    (fun h blk => sha256Compress h (bytesToWords blk)) sha256H0

def hexChar (n : Nat) : Char := if n < 10 then Char.ofNat (48 + n) else Char.ofNat (87 + n)

def wordHex (w : Nat) : List Char :=
  (List.range 8).map fun i => hexChar (w >>> (4 * (7 - i)) % 16)

/-- Lowercase hex characters of the digest, as `hexdigest()` returns. -/
def sha256HexChars (msg : List Nat) : List Char :=
  ((sha256Words msg).map wordHex).flatten

/-- UTF-8 encoding of one character, bytes as `Nat`. -/
def utf8Char (c : Char) : List Nat :=
  let n := c.toNat
  if n < 128 then [n]
  else if n < 2048 then [192 + n / 64, 128 + n % 64]
  else if n < 65536 then [224 + n / 4096, 128 + n / 64 % 64, 128 + n % 64]
  else [240 + n / 262144, 128 + n / 4096 % 64, 128 + n / 64 % 64, 128 + n % 64]

/-- `identifier.encode()`: UTF-8 bytes of a string. -/
def utf8Bytes (s : String) : List Nat := (s.data.map utf8Char).flatten

/-- `PIIRedactor` instance state: the `anonymize_names` flag and the
`_anonymization_cache` (modelled as an association list; the hit path
never inserts, so keys stay unique exactly as in a Python dict). -/
structure PIIRedactor where
  anonymize_names : Bool := true
  cache : List (String × String) := []

/-- A freshly constructed `PIIRedactor()`. -/
def freshRedactor : PIIRedactor := {}

/-- The token `anonymize` computes on a cache miss:
`f"{category}_{hashlib.sha256(identifier.encode()).hexdigest()[:6]}"`. -/
def anonToken (identifier category : String) : String :=
  category ++ "_" ++ String.mk ((sha256HexChars (utf8Bytes identifier)).take 6)

/-- `PIIRedactor.anonymize`: look up `f"{category}:{identifier}"` in the
cache; on a miss compute the hash token, store it, and return it
together with the updated instance state. -/
def anonymize (st : PIIRedactor) (identifier : String) (category : String) :
    String × PIIRedactor :=
  let cache_key := category ++ ":" ++ identifier
  match st.cache.lookup cache_key with
  | some v => (v, st)
  | Option.none =>
      let anonymized := anonToken identifier category
      (anonymized, { st with cache := (cache_key, anonymized) :: st.cache })

/-- A sequence of prior `anonymize` calls `(identifier, category)` on
one instance, performed for their effect on the cache. -/
def runCalls (st : PIIRedactor) (calls : List (String × String)) : PIIRedactor :=
  calls.foldl (fun s ic => (anonymize s ic.1 ic.2).2) st

/-- A string in which no registry pattern finds a match. -/
def stringClean (s : String) : Bool :=
  PATTERNS.all fun np => !reSearch np.2 s

mutual

/-- Every string leaf of the value is `stringClean`. -/
def leavesClean : ScanTarget → Bool
  | .str s => stringClean s
  | .list xs => leavesCleanList xs
  | .dict kvs => leavesCleanKVs kvs
  | .int _ => true
  | .bool _ => true
  | .none => true

def leavesCleanList : List ScanTarget → Bool
  | [] => true
  | x :: xs => leavesClean x && leavesCleanList xs

def leavesCleanKVs : List (String × ScanTarget) → Bool
  | [] => true
  | kv :: kvs => leavesClean kv.2 && leavesCleanKVs kvs

end

mutual

/-- Structural agreement up to string-leaf content: both values have
the same shape, the same dict keys in the same order, the same list
lengths and element order, and identical non-string leaves; only string
leaves are allowed to differ. -/
def eqModStrings : ScanTarget → ScanTarget → Bool
  | .str _, .str _ => true
  | .int n, .int m => n == m
  | .bool a, .bool b => a == b
  | .none, .none => true
  | .list xs, .list ys => eqModStringsList xs ys
  | .dict kvs, .dict kvs' => eqModStringsKVs kvs kvs'
  | _, _ => false

def eqModStringsList : List ScanTarget → List ScanTarget → Bool
  | [], [] => true
  | x :: xs, y :: ys => eqModStrings x y && eqModStringsList xs ys
  | _, _ => false

def eqModStringsKVs : List (String × ScanTarget) → List (String × ScanTarget) → Bool
  | [], [] => true
  | kv :: kvs, kv' :: kvs' => kv.1 == kv'.1 && eqModStrings kv.2 kv'.2 && eqModStringsKVs kvs kvs'
  | _, _ => false

end

/-- The key sequence of a mapping value (empty for non-mappings). -/
def topKeys : ScanTarget → List String
  | .dict kvs => kvs.map Prod.fst
  | _ => []

/-- A category string containing no `:` — the cache key
`f"{category}:{identifier}"` is then injective in `(category,
identifier)`. -/
def colonFree (s : String) : Bool := !s.data.contains ':'

/-- Cache well-formedness: every entry was produced by a miss of
`anonymize` for some colon-free category. -/
def goodCache (cache : List (String × String)) : Prop :=
  ∀ e ∈ cache, ∃ i c, colonFree c = true ∧ e.1 = c ++ ":" ++ i ∧ e.2 = anonToken i c

/-- Lowercase hexadecimal character. -/
def hexLower (c : Char) : Bool := c.isDigit || ('a' ≤ c && c ≤ 'f')

/-- The shape `"{category}_{6 hex chars}"` of an anonymization token. -/
def tokenShaped (category tok : String) : Prop :=
  ∃ h : String, tok = category ++ "_" ++ h ∧ h.length = 6 ∧ ∀ c ∈ h.data, hexLower c = true

/-! Theorems.  First, validation of the SHA-256 embedding against the
FIPS 180-4 test vectors (one-block and the boundary-crossing 70-byte
message). -/

theorem sha256_vector_empty :
    String.mk (sha256HexChars (utf8Bytes "")) =
      "e3b0c44298fc1c149afbf4c8996fb92427ae41e4649b934ca495991b7852b855" := by decide

theorem sha256_vector_abc :
    String.mk (sha256HexChars (utf8Bytes "abc")) =
      "ba7816bf8f01cfea414140de5dae2223b00361a396177a9cb410ff61f20015ad" := by decide

theorem sha256_vector_two_blocks :
    String.mk (sha256HexChars (utf8Bytes (String.mk (List.replicate 70 'a')))) =
      "6bd5e5034855a11241f0dee8fc72850ffd9955b28347a86428b5fa19119f6ad0" := by decide

/-- C1: every literal PII example of the known corpus is detected by
`detect_pii` with its expected category, and matching is
substring-level: the phone number embedded in prose is still found. -/
theorem recall_corpus_detected :
    "ssn" ∈ detect_pii (.str "123-45-6789") ∧
    "phone" ∈ detect_pii (.str "(555) 123-4567") ∧
    "phone" ∈ detect_pii (.str "555-123-4567") ∧
    "phone" ∈ detect_pii (.str "555.123.4567") ∧
    "phone" ∈ detect_pii (.str "5551234567") ∧
    "credit_card" ∈ detect_pii (.str "1234-5678-9012-3456") ∧
    "credit_card" ∈ detect_pii (.str "1234 5678 9012 3456") ∧
    "credit_card" ∈ detect_pii (.str "1234567890123456") ∧
    "email" ∈ detect_pii (.str "user@domain.com") ∧
    "email" ∈ detect_pii (.str "first.last@company.co.uk") ∧
    "phone" ∈ detect_pii (.str "call me at 555-123-4567") := by decide

/-- C3: `validate_data_for_storage` returns `compliant = true` exactly
when its `issues` list is empty, and `issues` is non-empty exactly when
the PII report over the record has `pii_detected = true` — PII presence
is the only issue source. -/
theorem compliant_iff_no_issues (data : ScanTarget) :
    ((validate_data_for_storage data).compliant = true ↔
      (validate_data_for_storage data).issues = []) ∧
    ((validate_data_for_storage data).issues ≠ [] ↔
      (get_pii_report data).pii_detected = true) := by
  unfold validate_data_for_storage
  cases h : (get_pii_report data).pii_detected <;> simp [h]

/-- C4: on a fresh `PIIRedactor`, `anonymize i c` returns exactly the
category, an underscore, and the first 6 characters of the hexadecimal
SHA-256 digest of the UTF-8 bytes of `i` — for every identifier
(including the empty string) and category; the operation is total by
construction. -/
theorem anonymize_fresh_formula (i c : String) :
    (anonymize freshRedactor i c).1 =
      c ++ "_" ++ String.mk ((sha256HexChars (utf8Bytes i)).take 6) := rfl

/-- C8: the gate-blocking scenario: `{"email": "john@example.com"}` is
non-compliant with a non-empty issue list, a detecting report naming
`"email"`; after `redact`, validation passes with no issues. -/
theorem gate_blocking_scenario :
    (validate_data_for_storage (.dict [("email", .str "john@example.com")])).compliant = false ∧
    (validate_data_for_storage (.dict [("email", .str "john@example.com")])).issues ≠ [] ∧
    (validate_data_for_storage
        (.dict [("email", .str "john@example.com")])).pii_report.pii_detected = true ∧
    "email" ∈ (validate_data_for_storage
        (.dict [("email", .str "john@example.com")])).pii_report.pii_types ∧
    (validate_data_for_storage
        (redact (.dict [("email", .str "john@example.com")]))).compliant = true ∧
    (validate_data_for_storage (redact (.dict [("email", .str "john@example.com")]))).issues = [] :=
  ⟨by decide, by decide, by decide, by decide, by decide, by decide⟩

/-- C9: the registry applies categories in the fixed order ssn,
credit_card, email, phone, and for credit-card-shaped strings the
earlier credit-card category wins: both forms redact to
`"[REDACTED_CC]"`, not to a phone redaction of a 10-digit sub-span. -/
theorem credit_card_priority_order :
    PATTERNS.map Prod.fst = ["ssn", "credit_card", "email", "phone"] ∧
    redact (.str "1234-5678-9012-3456") = .str "[REDACTED_CC]" ∧
    redact (.str "1234567890123456") = .str "[REDACTED_CC]" :=
  ⟨rfl, congrArg ScanTarget.str (by decide), congrArg ScanTarget.str (by decide)⟩

/-- C10: `redact` never rewrites mapping keys (the key sequence of any
mapping is preserved verbatim), and since detection flattens keys too,
the record `{"john@example.com": 1}` is returned unchanged by `redact`
yet still fails `validate_data_for_storage` afterwards. -/
theorem redact_keeps_dict_keys :
    (∀ kvs : List (String × ScanTarget), topKeys (redact (.dict kvs)) = topKeys (.dict kvs)) ∧
    redact (.dict [("john@example.com", .int 1)]) = .dict [("john@example.com", .int 1)] ∧
    (validate_data_for_storage
        (redact (.dict [("john@example.com", .int 1)]))).compliant = false := by
  refine ⟨?_, rfl, by decide⟩
  intro kvs
  simp only [redact, topKeys]
  induction kvs with
  | nil => rfl
  | cons kv kvs ih => simp [redactKVs, ih]

/-- If the search scan finds no match (from the same starting context),
the substitution scan copies the input unchanged, for any fuel. -/
theorem subFromF_of_no_search (p : Pat) (repl : List Char) :
    ∀ (fuel : Nat) (prev : Option Char) (s : List Char),
      searchFrom p prev s = false → subFromF p repl fuel prev s = s := by
  intro fuel
  induction fuel with
  | zero => intro prev s _; rfl
  | succ fuel ih =>
      intro prev s h
      rw [searchFrom.eq_def, Bool.or_eq_false_iff] at h
      obtain ⟨h1, h2⟩ := h
      cases hm : matchAtoms p prev s with
      | some rest => rw [hm] at h1; simp at h1
      | none =>
          rw [subFromF.eq_def]
          simp only [hm]
          cases s with
          | nil => rfl
          | cons c tail =>
              show c :: subFromF p repl fuel (some c) tail = c :: tail
              rw [ih (some c) tail h2]

/-- `re.sub` is the identity on strings `re.search` rejects. -/
theorem reSub_of_no_search (p : Pat) (repl : String) (s : String)
    (h : reSearch p s = false) : reSub p repl s = s := by
  unfold reSub subFrom
  rw [subFromF_of_no_search p repl.data _ none s.data h]

/-- `_redact_string` is the identity on strings no registry pattern
matches. -/
theorem redact_string_of_clean (s : String) (h : stringClean s = true) :
    _redact_string s = s := by
  simp only [stringClean, PATTERNS, List.all_cons, List.all_nil, Bool.and_true,
    Bool.and_eq_true, Bool.not_eq_true'] at h
  obtain ⟨h1, h2, h3, h4⟩ := h
  simp only [_redact_string, PATTERNS, REPLACEMENTS, List.foldl_cons, List.foldl_nil]
  rw [reSub_of_no_search _ _ _ h1, reSub_of_no_search _ _ _ h2,
      reSub_of_no_search _ _ _ h3, reSub_of_no_search _ _ _ h4]

mutual

/-- `redact` fixes every value whose string leaves are match-free. -/
theorem redact_of_leavesClean :
    ∀ x : ScanTarget, leavesClean x = true → redact x = x
  | .str s, h => by
      rw [redact, redact_string_of_clean s (by simpa [leavesClean] using h)]
  | .int _, _ => rfl
  | .bool _, _ => rfl
  | .none, _ => rfl
  | .list xs, h => by
      rw [redact, redactList_of_leavesClean xs (by simpa [leavesClean] using h)]
  | .dict kvs, h => by
      rw [redact, redactKVs_of_leavesClean kvs (by simpa [leavesClean] using h)]

theorem redactList_of_leavesClean :
    ∀ xs : List ScanTarget, leavesCleanList xs = true → redactList xs = xs
  | [], _ => rfl
  | x :: xs, h => by
      rw [leavesCleanList, Bool.and_eq_true] at h
      rw [redactList, redact_of_leavesClean x h.1, redactList_of_leavesClean xs h.2]

theorem redactKVs_of_leavesClean :
    ∀ kvs : List (String × ScanTarget), leavesCleanKVs kvs = true → redactKVs kvs = kvs
  | [], _ => rfl
  | kv :: kvs, h => by
      rw [leavesCleanKVs, Bool.and_eq_true] at h
      rw [redactKVs, redact_of_leavesClean kv.2 h.1, redactKVs_of_leavesClean kvs h.2]

end

/-- C2 counterexample: `redact` is not idempotent.  For the 20-digit
string leaf `"55512345675551234567"` the phone pattern's trailing `\b`
rules out the first ten digits on the first pass (they are followed by
a digit), but after the last ten digits are replaced, the first ten are
followed by `[` and match on a second pass. -/
theorem redact_not_idempotent :
    redact (redact (.str "55512345675551234567")) ≠ redact (.str "55512345675551234567") := by
  intro h
  rw [redact, redact, ScanTarget.str.injEq] at h
  exact absurd h (by decide)

/-- C2 (amended): `redact` is idempotent on every ScanTarget whose
one-pass result has only match-free string leaves — in particular
whenever the placeholders fully replace all matches; unrestricted
idempotence fails (see the counterexample). -/
theorem redact_idempotent_of_clean (x : ScanTarget)
    (h : leavesClean (redact x) = true) :
    redact (redact x) = redact x :=
  redact_of_leavesClean (redact x) h

/-- Witness for the amended C2 at the gate-blocking record. -/
theorem redact_idempotent_witness :
    leavesClean (redact (.dict [("email", .str "john@example.com")])) = true ∧
    redact (redact (.dict [("email", .str "john@example.com")])) =
      redact (.dict [("email", .str "john@example.com")]) :=
  ⟨by decide, redact_idempotent_of_clean (.dict [("email", .str "john@example.com")]) (by decide)⟩

mutual

theorem eqModStrings_redact_aux : ∀ x : ScanTarget, eqModStrings x (redact x) = true
  | .str s => rfl
  | .int n => by simp [redact, eqModStrings]
  | .bool b => by simp [redact, eqModStrings]
  | .none => rfl
  | .list xs => by
      rw [redact]
      show eqModStringsList xs (redactList xs) = true
      exact eqModStringsList_redact_aux xs
  | .dict kvs => by
      rw [redact]
      show eqModStringsKVs kvs (redactKVs kvs) = true
      exact eqModStringsKVs_redact_aux kvs

theorem eqModStringsList_redact_aux : ∀ xs : List ScanTarget,
    eqModStringsList xs (redactList xs) = true
  | [] => rfl
  | x :: xs => by
      rw [redactList]
      show (eqModStrings x (redact x) && eqModStringsList xs (redactList xs)) = true
      rw [Bool.and_eq_true]
      exact ⟨eqModStrings_redact_aux x, eqModStringsList_redact_aux xs⟩

theorem eqModStringsKVs_redact_aux : ∀ kvs : List (String × ScanTarget),
    eqModStringsKVs kvs (redactKVs kvs) = true
  | [] => rfl
  | kv :: kvs => by
      rw [redactKVs]
      show (kv.1 == kv.1 && eqModStrings kv.2 (redact kv.2) && eqModStringsKVs kvs (redactKVs kvs)) = true
      simp [eqModStrings_redact_aux kv.2, eqModStringsKVs_redact_aux kvs]

end

/-- C6: `redact` preserves shape: the output agrees with the input
everywhere except possibly in the content of string leaves — same dict
key sequences, same list lengths and order, and identical non-string
leaves (which, being a closed variant type, also models non-recognized
leaves passing through rather than raising). -/
theorem redact_preserves_shape (x : ScanTarget) : eqModStrings x (redact x) = true :=
  eqModStrings_redact_aux x

theorem sha256Round_length (kw : Nat × Nat) (st : List Nat) :
    (sha256Round kw st).length = st.length := by
  unfold sha256Round
  split <;> simp

theorem sha256_foldl_rounds_length (l : List (Nat × Nat)) (st : List Nat) :
    (l.foldl (fun s kw => sha256Round kw s) st).length = st.length := by
  induction l generalizing st with
  | nil => rfl
  | cons kw l ih => rw [List.foldl_cons, ih, sha256Round_length]

theorem sha256Compress_length (h blk : List Nat) (hh : h.length = 8) :
    (sha256Compress h blk).length = 8 := by
  unfold sha256Compress
  simp [sha256_foldl_rounds_length, hh]

theorem sha256_foldl_blocks_length (blocks : List (List Nat)) :
    ∀ h : List Nat, h.length = 8 →
      (blocks.foldl (fun h blk => sha256Compress h (bytesToWords blk)) h).length = 8 := by
  induction blocks with
  | nil => intro h hh; simpa
  | cons b bs ih =>
      intro h hh
      rw [List.foldl_cons]
      exact ih _ (sha256Compress_length _ _ hh)

theorem sha256Words_length (msg : List Nat) : (sha256Words msg).length = 8 := by
  unfold sha256Words
  exact sha256_foldl_blocks_length _ sha256H0 (by decide)

theorem wordHex_length (w : Nat) : (wordHex w).length = 8 := by simp [wordHex]

theorem flatten_wordHex_length :
    ∀ ws : List Nat, ((ws.map wordHex).flatten).length = 8 * ws.length
  | [] => rfl
  | w :: ws => by
      simp only [List.map_cons, List.flatten_cons, List.length_append, wordHex_length,
        flatten_wordHex_length ws, List.length_cons]
      omega

theorem sha256HexChars_length (msg : List Nat) : (sha256HexChars msg).length = 64 := by
  unfold sha256HexChars
  rw [flatten_wordHex_length, sha256Words_length]

theorem hexChar_mod_hexLower (n : Nat) : hexLower (hexChar (n % 16)) = true := by
  have hlt : n % 16 < 16 := Nat.mod_lt _ (by norm_num)
  have hall : ∀ m, m < 16 → hexLower (hexChar m) = true := by decide
  exact hall _ hlt

theorem wordHex_hexLower (w : Nat) : ∀ c ∈ wordHex w, hexLower c = true := by
  intro c hc
  simp only [wordHex, List.mem_map, List.mem_range] at hc
  obtain ⟨i, _, rfl⟩ := hc
  exact hexChar_mod_hexLower _

theorem sha256HexChars_hexLower (msg : List Nat) :
    ∀ c ∈ sha256HexChars msg, hexLower c = true := by
  intro c hc
  unfold sha256HexChars at hc
  rw [List.mem_flatten] at hc
  obtain ⟨l, hl, hcl⟩ := hc
  rw [List.mem_map] at hl
  obtain ⟨w, _, rfl⟩ := hl
  exact wordHex_hexLower w c hcl

/-- Every anonymization token has the shape `"{category}_{6 hex}"`. -/
theorem anonToken_shaped (i c : String) : tokenShaped c (anonToken i c) := by
  refine ⟨String.mk ((sha256HexChars (utf8Bytes i)).take 6), rfl, ?_, ?_⟩
  · rw [String.length_mk, List.length_take, sha256HexChars_length]
    norm_num
  · intro ch hch
    exact sha256HexChars_hexLower _ ch (List.mem_of_mem_take hch)

/-- The category prefix makes tokens of the same identifier injective in
the category (the hash suffix has a fixed length). -/
theorem anonToken_cat_inj (i : String) {c1 c2 : String}
    (h : anonToken i c1 = anonToken i c2) : c1 = c2 := by
  unfold anonToken at h
  have hd := congrArg String.data h
  simp only [String.data_append] at hd
  exact String.ext (List.append_cancel_right (List.append_cancel_right hd))

/-- C7: for one identifier, distinct categories always produce distinct
tokens, and both tokens have the shape `"{category}_{6 hex chars}"`. -/
theorem anonymize_distinct_categories (i c1 c2 : String) (h : c1 ≠ c2) :
    (anonymize freshRedactor i c1).1 ≠ (anonymize freshRedactor i c2).1 ∧
    tokenShaped c1 (anonymize freshRedactor i c1).1 ∧
    tokenShaped c2 (anonymize freshRedactor i c2).1 := by
  refine ⟨fun he => h (anonToken_cat_inj i he), anonToken_shaped i c1, anonToken_shaped i c2⟩

/-- Witness for C7 at the spec's example: `"John Smith"` under
`"customer"` versus `"contractor"`. -/
theorem anonymize_distinct_categories_witness :
    "customer" ≠ "contractor" ∧
    (anonymize freshRedactor "John Smith" "customer").1 ≠
      (anonymize freshRedactor "John Smith" "contractor").1 ∧
    tokenShaped "customer" (anonymize freshRedactor "John Smith" "customer").1 ∧
    tokenShaped "contractor" (anonymize freshRedactor "John Smith" "contractor").1 := by
  have h := anonymize_distinct_categories "John Smith" "customer" "contractor" (by decide)
  exact ⟨by decide, h.1, h.2.1, h.2.2⟩

theorem lookup_mem :
    ∀ {l : List (String × String)} {k v : String}, l.lookup k = some v → (k, v) ∈ l := by
  intro l
  induction l with
  | nil => intro k v h; simp [List.lookup] at h
  | cons e l ih =>
      intro k v h
      obtain ⟨k', v'⟩ := e
      rw [List.lookup] at h
      split at h
      · next heq =>
          cases h
          have hk : k = k' := by simpa using heq
          subst hk
          exact List.mem_cons_self _ _
      · exact List.mem_cons_of_mem _ (ih h)

theorem colon_key_inj :
    ∀ a b x y : List Char, ':' ∉ a → ':' ∉ b →
      a ++ ':' :: x = b ++ ':' :: y → a = b ∧ x = y := by
  intro a
  induction a with
  | nil =>
      intro b x y _ hb h
      cases b with
      | nil => simpa using h
      | cons c bs =>
          rw [List.nil_append, List.cons_append, List.cons.injEq] at h
          exact absurd (h.1 ▸ List.mem_cons_self c bs) hb
  | cons c as ih =>
      intro b x y ha hb h
      cases b with
      | nil =>
          rw [List.nil_append, List.cons_append, List.cons.injEq] at h
          exact absurd (h.1 ▸ List.mem_cons_self c as) (h.1 ▸ ha)
      | cons c' bs =>
          rw [List.cons_append, List.cons_append, List.cons.injEq] at h
          obtain ⟨rfl, htail⟩ := h
          have hmem : ':' ∉ as := fun hh => ha (List.mem_cons_of_mem _ hh)
          have hmem' : ':' ∉ bs := fun hh => hb (List.mem_cons_of_mem _ hh)
          obtain ⟨rfl, rfl⟩ := ih bs x y hmem hmem' htail
          exact ⟨rfl, rfl⟩

/-- The cache key `f"{category}:{identifier}"` determines `(category,
identifier)` uniquely when neither category contains `:`. -/
theorem cache_key_inj {c1 i1 c2 i2 : String} (h1 : colonFree c1 = true)
    (h2 : colonFree c2 = true) (h : c1 ++ ":" ++ i1 = c2 ++ ":" ++ i2) :
    c1 = c2 ∧ i1 = i2 := by
  have hd := congrArg String.data h
  simp only [String.data_append] at hd
  have hnc1 : ':' ∉ c1.data := by simpa [colonFree] using h1
  have hnc2 : ':' ∉ c2.data := by simpa [colonFree] using h2
  have hd' : c1.data ++ ':' :: i1.data = c2.data ++ ':' :: i2.data := by
    simpa [List.append_assoc] using hd
  obtain ⟨hc, hi⟩ := colon_key_inj _ _ _ _ hnc1 hnc2 hd'
  exact ⟨String.ext hc, String.ext hi⟩

theorem goodCache_nil : goodCache [] := by
  intro e he
  exact absurd he (List.not_mem_nil e)

theorem goodCache_anonymize (st : PIIRedactor) (hg : goodCache st.cache)
    (i c : String) (hc : colonFree c = true) :
    goodCache (anonymize st i c).2.cache := by
  unfold anonymize
  cases hl : st.cache.lookup (c ++ ":" ++ i) with
  | some v => simpa [hl] using hg
  | none =>
      simp only [hl]
      intro e he
      rcases List.mem_cons.mp he with rfl | he
      · exact ⟨i, c, hc, rfl, rfl⟩
      · exact hg e he

theorem goodCache_runCalls :
    ∀ (calls : List (String × String)) (st : PIIRedactor), goodCache st.cache →
      (∀ ic ∈ calls, colonFree ic.2 = true) → goodCache (runCalls st calls).cache := by
  intro calls
  induction calls with
  | nil => intro st hg _; exact hg
  | cons ic calls ih =>
      intro st hg hall
      show goodCache (runCalls (anonymize st ic.1 ic.2).2 calls).cache
      exact ih _ (goodCache_anonymize st hg ic.1 ic.2 (hall ic (List.mem_cons_self _ _)))
        fun x hx => hall x (List.mem_cons_of_mem _ hx)

/-- On any instance whose cache satisfies `goodCache`, `anonymize` with
a colon-free category returns the pure hash token. -/
theorem anonymize_fst_goodCache (st : PIIRedactor) (hg : goodCache st.cache)
    (i c : String) (hc : colonFree c = true) :
    (anonymize st i c).1 = anonToken i c := by
  unfold anonymize
  cases hl : st.cache.lookup (c ++ ":" ++ i) with
  | none => simp [hl]
  | some v =>
      simp only [hl]
      obtain ⟨i', c', hc', hkey, hval⟩ := hg _ (lookup_mem hl)
      obtain ⟨rfl, rfl⟩ := cache_key_inj hc hc' hkey
      exact hval

/-- C5 counterexample: the cache key `f"{category}:{identifier}"`
collides for `("c", category "a:b")` and `("b:c", category "a")`, so the
value returned for `("b:c", "a")` depends on the prior call history of
the instance — the cache is not merely an optimization. -/
theorem anonymize_history_dependent :
    (anonymize (runCalls freshRedactor [("c", "a:b")]) "b:c" "a").1 ≠
      (anonymize freshRedactor "b:c" "a").1 := by decide

/-- C5 (amended): `anonymize i c` is a pure function of `(i, c)` —
independent of any prior call sequence on the same instance — provided
the categories involved contain no `:` (the colliding cache key
`f"{category}:{identifier}"` is then injective); with colon-bearing
categories the result can depend on history (see the counterexample). -/
theorem anonymize_pure_of_colonFree (calls : List (String × String)) (i c : String)
    (hall : ∀ ic ∈ calls, colonFree ic.2 = true) (hc : colonFree c = true) :
    (anonymize (runCalls freshRedactor calls) i c).1 = anonToken i c :=
  anonymize_fst_goodCache _ (goodCache_runCalls calls freshRedactor goodCache_nil hall) i c hc

/-- Witness for the amended C5: after a prior call `("x", "cat")`, the
call `("y", "cat2")` still returns the pure hash token. -/
theorem anonymize_pure_witness :
    (∀ ic ∈ [("x", "cat")], colonFree ic.2 = true) ∧ colonFree "cat2" = true ∧
    (anonymize (runCalls freshRedactor [("x", "cat")]) "y" "cat2").1 = anonToken "y" "cat2" :=
  ⟨by decide, by decide,
    anonymize_pure_of_colonFree [("x", "cat")] "y" "cat2" (by decide) (by decide)⟩

end ZevBit
